import Mathlib

/-!
Shallow embedding of `styxproto/decoder.go`: the sliding-window decoder
core for a stream of 9P messages.  Bytes are modelled as `Nat`, the
underlying byte-stream source as a finite list of bytes followed by a
terminal condition (`Err.eof` for a clean end of stream, any other error
for a failing source).  Go 64-bit signed integer wraparound is modelled
explicitly (`wrap64`) at the one place the source guards against it
(`Decoder.fill`); elsewhere Go `int` arithmetic is modelled by `Int`,
with range hypotheses stated in the theorems where a claim depends on
the machine width.  A Go `panic` is modelled as the `none` case of an
`Option` result; errors returned as values are modelled by `Option Err`
or `Except Err`.
-/

namespace Styxproto

/-- Error values the decoder core can observe: `eof` models `io.EOF`,
`unexpectedEof` models `io.ErrUnexpectedEOF`, `fillOverflow` models
`errFillOverflow` from decoder.go, `bufferFull` and `negativeCount`
model the corresponding `bufio` errors, and `ioError s` models any
other error produced by the underlying source. -/
inductive Err where
  | eof
  | unexpectedEof
  | fillOverflow
  | bufferFull
  | negativeCount
  | ioError (s : String)
deriving DecidableEq, Repr

/-- Maximum value of a Go `int` (64-bit platform).  Modelled from the
spec: the constant `maxInt` referenced by `Decoder.fill` is defined
outside `src/`; the spec calls it the maximum representable int. -/
def maxInt : Int := 2 ^ 63 - 1

/-- Two's-complement wraparound of Go 64-bit signed integer arithmetic. -/
def wrap64 (x : Int) : Int := (x + 2 ^ 63) % 2 ^ 64 - 2 ^ 63

/-- Model of `bufio.Reader`: `bufSize` is the capacity fixed at
construction, `buf` the bytes currently buffered, `src` the bytes the
underlying reader can still deliver, and `srcErr` the error the
underlying reader reports once `src` is exhausted (`Err.eof` for a
clean end of stream). -/
structure BufioReader where
  bufSize : Nat
  buf : List Nat
  src : List Nat
  srcErr : Err
deriving DecidableEq, Repr

/-- The full remaining byte stream visible through a `BufioReader`:
buffered bytes followed by undelivered source bytes. -/
def BufioReader.stream (b : BufioReader) : List Nat := b.buf ++ b.src

/-- Model of `bufio.Reader.Buffered`: the number of bytes currently in
the internal buffer. -/
def BufioReader.Buffered (b : BufioReader) : Nat := b.buf.length

/-- The fill loop inside `bufio.Reader.Peek`: move bytes from the source
into the buffer until `k` bytes are buffered, the buffer is full, or the
source is exhausted. -/
def BufioReader.fillTo (b : BufioReader) (k : Nat) : BufioReader :=
  { b with buf := b.buf ++ b.src.take (min k b.bufSize - b.buf.length)
           src := b.src.drop (min k b.bufSize - b.buf.length) }

/-- Model of `bufio.Reader.Peek k`: returns the first `k` buffered bytes
without consuming them, filling from the source as needed; errors with
`negativeCount` for `k < 0`, `bufferFull` when `k` exceeds the buffer
capacity, and the source's terminal error when fewer than `k` bytes can
be supplied. -/
def BufioReader.peek (b : BufioReader) (k : Int) : BufioReader × List Nat × Option Err :=
  if k < 0 then (b, [], some Err.negativeCount)
  else if (b.fillTo k.toNat).bufSize < k.toNat then
    (b.fillTo k.toNat, (b.fillTo k.toNat).buf, some Err.bufferFull)
  else if (b.fillTo k.toNat).buf.length < k.toNat then
    (b.fillTo k.toNat, (b.fillTo k.toNat).buf, some (b.fillTo k.toNat).srcErr)
  else (b.fillTo k.toNat, (b.fillTo k.toNat).buf.take k.toNat, none)

/-- Model of `io.CopyN(ioutil.Discard, b, n)`: consume `n` bytes from
the reader (buffered bytes first, then the source); when fewer than `n`
bytes are available everything is consumed and the source's terminal
error is returned (`io.CopyN` reports `io.EOF` for a short clean
stream). -/
def BufioReader.readN (b : BufioReader) (n : Nat) : BufioReader × Option Err :=
  if n ≤ b.buf.length + b.src.length then
    ({ b with buf := b.buf.drop n, src := b.src.drop (n - b.buf.length) }, none)
  else
    ({ b with buf := [], src := [] }, some b.srcErr)

/-- `discard(r, n)` from decoder.go: `io.CopyN(ioutil.Discard, r, n)`,
returning only the error. -/
def discard (b : BufioReader) (n : Nat) : BufioReader × Option Err := b.readN n

/-- Modelled from the spec: the message type `Msg` is defined outside
`src/`.  Per the spec every message reports its own `byte_length`
(`nbytes`) and may additionally expose a streaming-read capability
(`io.Reader`); `hasReader` records that capability and `drainErr` the
result of reading the remaining body to completion (`none` when the
drain succeeds; the drain's interaction with the underlying source is
not modelled because the reader implementation is outside `src/`). -/
structure Msg where
  nbytes : Nat
  hasReader : Bool
  drainErr : Option Err
deriving DecidableEq, Repr

/-- Model of the `Decoder` struct from decoder.go. -/
structure Decoder where
  MaxSize : Int
  br : BufioReader
  start : Int
  pos : Int
  msg : List Msg
  err : Option Err
deriving DecidableEq, Repr

/-- Modelled from the spec: the constant `MinBufSize` is defined outside
`src/`; only the clamping behaviour of the constructors depends on it,
not its numeric value, so a representative value is used. -/
def MinBufSize : Nat := 23

/-- Modelled from the spec: the constant `DefaultBufSize` is defined
outside `src/`; a representative value is used. -/
def DefaultBufSize : Nat := 8192

/-- `NewDecoderSize(r, bufsize)` from decoder.go: clamp the requested
buffer size up to `MinBufSize` and build a decoder with `MaxSize = -1`.
The source is given as its byte list plus terminal condition. -/
def NewDecoderSize (src : List Nat) (srcErr : Err) (bufsize : Int) : Decoder :=
  { MaxSize := -1
    br := { bufSize := (if bufsize < (MinBufSize : Int) then (MinBufSize : Int) else bufsize).toNat
            buf := []
            src := src
            srcErr := srcErr }
    start := 0
    pos := 0
    msg := []
    err := none }

/-- `NewDecoder(r)` from decoder.go: a decoder with buffer size
`DefaultBufSize`. -/
def NewDecoder (src : List Nat) (srcErr : Err) : Decoder :=
  NewDecoderSize src srcErr (DefaultBufSize : Int)

/-- `Decoder.Reset` from decoder.go: rebind the decoder to a new source,
resetting `MaxSize` to -1, the cursor, the batch and the sticky error,
while keeping the buffer allocation (`bufSize` unchanged). -/
def Decoder.Reset (s : Decoder) (src : List Nat) (srcErr : Err) : Decoder :=
  { s with
    MaxSize := -1
    br := { s.br with buf := [], src := src, srcErr := srcErr }
    start := 0
    pos := 0
    msg := []
    err := none }

/-- `Decoder.Err` from decoder.go: the sticky error, with `io.EOF`
normalized to no error. -/
def Decoder.Err (s : Decoder) : Option Err :=
  if s.err = some Err.eof then none else s.err

/-- `Decoder.Messages` from decoder.go. -/
def Decoder.Messages (s : Decoder) : List Msg := s.msg

/-- Loop body of `Decoder.exhaustReaders`: walk the previous batch and
drain each message that exposes an `io.Reader`; report the first drain
error (the Go loop breaks there). -/
def exhaustLoop (msgs : List Msg) : Option Err :=
  match msgs with
  | [] => none
  | m :: rest =>
    if m.hasReader then
      match m.drainErr with
      | some e => some e
      | none => exhaustLoop rest
    else exhaustLoop rest

/-- `Decoder.exhaustReaders` from decoder.go: on a drain failure the
error is assigned to `s.err` (unconditionally) and the loop breaks. -/
def Decoder.exhaustReaders (s : Decoder) : Decoder :=
  match exhaustLoop s.msg with
  | some e => { s with err := some e }
  | none => s

/-- Loop of `Decoder.dropMessages`: discard each previous message's
`nbytes` from the buffered reader, stopping at the first failure. -/
def dropLoop (b : BufioReader) (msgs : List Msg) : BufioReader × Option Err :=
  match msgs with
  | [] => (b, none)
  | m :: rest =>
    match discard b m.nbytes with
    | (b2, none) => dropLoop b2 rest
    | (b2, some e) => (b2, some e)

/-- `Decoder.dropMessages` from decoder.go: discard every previous
message's bytes (a failure assigns `s.err` unconditionally and breaks),
then truncate the batch to empty. -/
def Decoder.dropMessages (s : Decoder) : Decoder :=
  match dropLoop s.br s.msg with
  | (b2, some e) => { s with br := b2, err := some e, msg := [] }
  | (b2, none) => { s with br := b2, msg := [] }

/-- `Decoder.resetdot` from decoder.go. -/
def Decoder.resetdot (s : Decoder) : Decoder := { s with start := 0, pos := 0 }

/-- `Decoder.buflen` from decoder.go: bytes buffered after the dot. -/
def Decoder.buflen (s : Decoder) : Int := (s.br.Buffered : Int) - s.pos

/-- `Decoder.dotlen` from decoder.go. -/
def Decoder.dotlen (s : Decoder) : Int := s.pos - s.start

/-- `Decoder.advance` from decoder.go: `none` models the panic when
fewer than `n` bytes are buffered after the dot. -/
def Decoder.advance (s : Decoder) (n : Int) : Option Decoder :=
  if s.buflen < n then none else some { s with pos := s.pos + n }

/-- `Decoder.shrinkdot` from decoder.go: `none` models the panic when
the dot is shorter than `n`. -/
def Decoder.shrinkdot (s : Decoder) (n : Int) : Option Decoder :=
  if s.dotlen < n then none else some { s with pos := s.pos - n }

/-- `Decoder.mark` from decoder.go: advance the start of the dot to its
end. -/
def Decoder.mark (s : Decoder) : Decoder := { s with start := s.pos }

/-- `Decoder.dot` from decoder.go: the span `[start, pos)` of the
buffered bytes.  `none` models the three panic paths: `pos` beyond the
buffered bytes, a failing `Peek`, and the slice expression
`buf[s.start:]` with `start` outside `[0, len(buf)]`. -/
def Decoder.dot (s : Decoder) : Option (Decoder × List Nat) :=
  if (s.br.Buffered : Int) < s.pos then none
  else
    match s.br.peek s.pos with
    | (_, _, some _) => none
    | (br2, buf, none) =>
      if 0 ≤ s.start ∧ s.start ≤ (buf.length : Int) then
        some ({ s with br := br2 }, buf.drop s.start.toNat)
      else none

/-- `Decoder.fill` from decoder.go: guard the requested length against
64-bit overflow (`maxInt-n < s.pos`, computed with Go wraparound), then
`Peek(s.pos + n)`; when it returns no error at least `n` bytes are
buffered past the dot. -/
def Decoder.fill (s : Decoder) (n : Int) : Decoder × Option Styxproto.Err :=
  if wrap64 (maxInt - n) < s.pos then (s, some Err.fillOverflow)
  else
    match s.br.peek (s.pos + n) with
    | (br2, _, e) => ({ s with br := br2 }, e)

/-- `Decoder.growdot` from decoder.go: extend the dot to be `n` bytes
long, filling first; `none` models a panic inside `advance` or `dot`,
`Except.error` the error returned by `fill`. -/
def Decoder.growdot (s : Decoder) (n : Int) : Option (Decoder × Except Styxproto.Err (List Nat)) :=
  match s.fill (n - s.dotlen) with
  | (s2, some e) => some (s2, Except.error e)
  | (s2, none) =>
    match s2.advance (n - s2.dotlen) with
    | none => none
    | some s3 =>
      match s3.dot with
      | none => none
      | some (s4, bytes) => some (s4, Except.ok bytes)

/-- `Decoder.Next` from decoder.go, parametrized by the fetch step.
Modelled from the spec: `fetchMessages` (the external parsing stage,
spec §4.2 step 4) is defined outside `src/`, so it is passed in as a
function returning the updated decoder and the error `Next` inspects. -/
def Decoder.Next (fetch : Decoder → Decoder × Option Styxproto.Err) (s : Decoder) : Decoder × Bool :=
  if (s.exhaustReaders.dropMessages.resetdot).err.isSome then
    (s.exhaustReaders.dropMessages.resetdot, false)
  else
    match fetch (s.exhaustReaders.dropMessages.resetdot) with
    | (s4, some _) => (s4, false)
    | (s4, none) => (s4, true)

/-- The cursor invariant from the spec: `0 <= start <= pos <=
buffered_length`. -/
def Invariant (s : Decoder) : Prop :=
  0 ≤ s.start ∧ s.start ≤ s.pos ∧ s.pos ≤ (s.br.Buffered : Int)

instance (s : Decoder) : Decidable (Invariant s) := by
  unfold Invariant; infer_instance

/-- A fetch step that succeeds without changing the decoder; used to
instantiate the abstract parsing stage on concrete inputs. -/
def fetchId : Decoder → Decoder × Option Err := fun d => (d, none)

/-- A fetch step that reports an error; used to show `Next` ignores the
fetch step once an earlier phase has failed. -/
def fetchStop : Decoder → Decoder × Option Err :=
  fun d => ({ d with MaxSize := 7 }, some Err.eof)

/-- A 3-byte message exposing a streaming reader whose drain fails. -/
def msgBoom : Msg := ⟨3, true, some (Err.ioError "boom")⟩

/-- A 2-byte message with no streaming reader. -/
def msgPlain2 : Msg := ⟨2, false, none⟩

/-- A 3-byte message with no streaming reader. -/
def msgPlain3 : Msg := ⟨3, false, none⟩

/-- Concrete decoder for claim C1: one drain-failing message, five
buffered bytes. -/
def dC1c : Decoder := ⟨-1, ⟨23, [1, 2, 3, 4, 5], [], Err.eof⟩, 0, 5, [msgBoom], none⟩

/-- Concrete decoder for claim C2. -/
def dC2w : Decoder := ⟨-1, ⟨23, [1, 2], [3, 4, 5], Err.eof⟩, 0, 1, [], none⟩

/-- Concrete decoder for claim C3's counterexample: a drain-failing
message whose byte length exceeds the remaining stream. -/
def dC3c : Decoder := ⟨-1, ⟨23, [], [], Err.eof⟩, 0, 0, [msgBoom], none⟩

/-- Concrete decoder for claim C3's amended theorem: sticky error set,
batch already cleared. -/
def dC3w : Decoder := ⟨-1, ⟨23, [], [], Err.eof⟩, 0, 3, [], some (Err.ioError "boom")⟩

/-- Concrete decoder for claim C4 with a clean end-of-stream error. -/
def dC4a : Decoder := ⟨-1, ⟨23, [], [], Err.eof⟩, 0, 0, [], some Err.eof⟩

/-- Concrete decoder for claim C4 with a truncated-stream error. -/
def dC4b : Decoder := ⟨-1, ⟨23, [], [], Err.eof⟩, 0, 0, [], some Err.unexpectedEof⟩

/-- Concrete decoder for claim C5: a two-message batch over seven
stream bytes. -/
def d5w : Decoder := ⟨-1, ⟨23, [1, 2, 3], [4, 5, 6, 7], Err.eof⟩, 0, 0, [msgPlain2, msgPlain3], none⟩

/-- Concrete decoder for claim C6's counterexample. -/
def d6c : Decoder := ⟨-1, ⟨23, [], [], Err.eof⟩, 0, 0, [], none⟩

/-- Concrete decoder for claim C6's amended theorem. -/
def d6w : Decoder := ⟨-1, ⟨23, [9, 8], [], Err.eof⟩, 0, 1, [], none⟩

/-- Concrete decoder for claim C7: three source bytes, empty buffer. -/
def d7w : Decoder := ⟨-1, ⟨23, [], [10, 20, 30], Err.eof⟩, 0, 0, [], none⟩

/-- The decoder state `d7w.growdot 2` produces. -/
def d7post : Decoder := ⟨-1, ⟨23, [10, 20], [30], Err.eof⟩, 0, 2, [], none⟩

/-- Appending a prefix of `l2` to `l1` is a prefix of `l1 ++ l2`. -/
theorem take_append_exact (l1 l2 : List Nat) (t : Nat) :
    l1 ++ l2.take t = (l1 ++ l2).take (l1.length + (l2.take t).length) := by
  have h1 : l1.take (l1.length + (l2.take t).length) = l1 :=
    List.take_of_length_le (by omega)
  rw [List.take_append_eq_append_take, h1]
  congr 1
  rw [List.take_eq_take]
  simp only [List.length_take]
  omega

/-- `fillTo` preserves capacity, terminal error and the stream, only
grows the buffer, and keeps the buffer a prefix of the stream. -/
theorem fillTo_spec (b : BufioReader) (n : Nat) :
    (b.fillTo n).bufSize = b.bufSize ∧ (b.fillTo n).srcErr = b.srcErr ∧
    (b.fillTo n).stream = b.stream ∧
    b.buf.length ≤ (b.fillTo n).buf.length ∧
    (b.fillTo n).buf = b.stream.take (b.fillTo n).buf.length := by
  unfold BufioReader.fillTo BufioReader.stream
  refine ⟨rfl, rfl, ?_, by simp only [List.length_append]; omega, ?_⟩
  · simp [List.append_assoc, List.take_append_drop]
  · simp only [List.length_append]
    exact take_append_exact b.buf b.src _

/-- The reader state returned by `peek` is the `fillTo` of its input
(or the input itself for a negative count). -/
theorem peek_fst (b : BufioReader) (k : Int) :
    (b.peek k).1 = if k < 0 then b else b.fillTo k.toNat := by
  unfold BufioReader.peek
  split
  · rfl
  · split
    · rfl
    · split <;> rfl

/-- A successful `peek k` means `k` was nonnegative, the resulting
buffer holds at least `k` bytes within capacity, and the returned bytes
are the first `k` buffered bytes. -/
theorem peek_none_spec (b : BufioReader) (k : Int) (b2 : BufioReader) (out : List Nat)
    (h : b.peek k = (b2, out, none)) :
    0 ≤ k ∧ b2 = b.fillTo k.toNat ∧ k.toNat ≤ b2.buf.length ∧
    k.toNat ≤ b2.bufSize ∧ out = b2.buf.take k.toNat := by
  unfold BufioReader.peek at h
  split at h
  · simp at h
  · next hk =>
    split at h
    · simp at h
    · next h1 =>
      split at h
      · simp at h
      · next h2 =>
        rw [Prod.mk.injEq, Prod.mk.injEq] at h
        obtain ⟨hb2, hout, -⟩ := h
        subst hb2
        subst hout
        exact ⟨le_of_not_lt hk, rfl, le_of_not_lt h2, le_of_not_lt h1, rfl⟩

/-- When `k` bytes are already buffered (within capacity), `peek k`
performs no I/O and returns the first `k` buffered bytes. -/
theorem peek_noop (b : BufioReader) (k : Int) (h0 : 0 ≤ k)
    (h1 : k.toNat ≤ b.buf.length) (h2 : k.toNat ≤ b.bufSize) :
    b.peek k = (b, b.buf.take k.toNat, none) := by
  unfold BufioReader.peek BufioReader.fillTo
  have hneed : min k.toNat b.bufSize - b.buf.length = 0 := by omega
  simp only [hneed, List.take_zero, List.append_nil, List.drop_zero]
  rw [if_neg (not_lt.2 h0), if_neg (not_lt.2 h2), if_neg (not_lt.2 h1)]

/-- When the stream holds at least `n` bytes, `readN n` consumes exactly
`n` bytes from the front of the stream and reports no error. -/
theorem readN_success (b : BufioReader) (n : Nat) (h : n ≤ b.stream.length) :
    (b.readN n).2 = none ∧ (b.readN n).1.stream = b.stream.drop n ∧
    (b.readN n).1.bufSize = b.bufSize ∧ (b.readN n).1.srcErr = b.srcErr := by
  unfold BufioReader.stream at h
  rw [List.length_append] at h
  unfold BufioReader.readN BufioReader.stream
  rw [if_pos h]
  exact ⟨rfl, List.drop_append_eq_append_drop.symm, rfl, rfl⟩

/-- When the stream holds at least the batch's total byte length, the
drop loop succeeds and removes exactly that many bytes, message by
message in batch order, from the front of the stream. -/
theorem dropLoop_success (msgs : List Msg) (b : BufioReader)
    (h : (msgs.map Msg.nbytes).sum ≤ b.stream.length) :
    (dropLoop b msgs).2 = none ∧
    (dropLoop b msgs).1.stream = b.stream.drop ((msgs.map Msg.nbytes).sum) ∧
    (dropLoop b msgs).1.bufSize = b.bufSize ∧
    (dropLoop b msgs).1.srcErr = b.srcErr := by
  induction msgs generalizing b with
  | nil => simp [dropLoop]
  | cons m rest ih =>
    have hm : m.nbytes ≤ b.stream.length := by
      simp only [List.map_cons, List.sum_cons] at h
      omega
    obtain ⟨h1, h2, h3, h4⟩ := readN_success b m.nbytes hm
    rcases hbr : b.readN m.nbytes with ⟨b2, e⟩
    rw [hbr] at h1 h2 h3 h4
    dsimp only at h1 h2 h3 h4
    subst h1
    have hrest : (rest.map Msg.nbytes).sum ≤ b2.stream.length := by
      rw [h2, List.length_drop]
      simp only [List.map_cons, List.sum_cons] at h
      omega
    obtain ⟨ih1, ih2, ih3, ih4⟩ := ih b2 hrest
    unfold dropLoop discard
    rw [hbr]
    refine ⟨ih1, ?_, by rw [ih3, h3], by rw [ih4, h4]⟩
    rw [ih2, h2, List.drop_drop]
    simp only [List.map_cons, List.sum_cons]

/-- C5: `dropMessages` discards, in batch order, exactly `nbytes`
bytes per previous message from the front of the window: when the
stream holds the batch's total length `L`, the window afterwards starts
exactly `L` bytes later, the sticky error and the cursor are untouched,
and the batch is cleared. -/
theorem C5_dropMessages_exact (s : Decoder)
    (h : (s.msg.map Msg.nbytes).sum ≤ s.br.stream.length) :
    (s.dropMessages).br.stream = s.br.stream.drop ((s.msg.map Msg.nbytes).sum) ∧
    (s.dropMessages).err = s.err ∧
    (s.dropMessages).msg = [] ∧
    (s.dropMessages).br.bufSize = s.br.bufSize ∧
    (s.dropMessages).start = s.start ∧ (s.dropMessages).pos = s.pos := by
  obtain ⟨h1, h2, h3, h4⟩ := dropLoop_success s.msg s.br h
  rcases hdl : dropLoop s.br s.msg with ⟨b2, e⟩
  rw [hdl] at h1 h2 h3 h4
  dsimp only at h1 h2 h3 h4
  subst h1
  unfold Decoder.dropMessages
  rw [hdl]
  exact ⟨h2, rfl, rfl, h3, rfl, rfl⟩

/-- C5 witness: the batch of `d5w` consumes 5 of its 7 stream bytes;
after `dropMessages` the window stream is `[6, 7]`, the error is
untouched and the batch is empty. -/
theorem C5_dropMessages_exact_witness :
    (d5w.dropMessages).br.stream = [6, 7] ∧ (d5w.dropMessages).err = none ∧
    (d5w.dropMessages).msg = [] := by
  obtain ⟨h1, h2, h3, -⟩ := C5_dropMessages_exact d5w (by decide)
  exact ⟨h1.trans (by decide), h2, h3⟩

/-- A successful `fill n` leaves everything but the buffered reader
unchanged, implies `pos + n` was nonnegative, and guarantees at least
`pos + n` buffered bytes within capacity. -/
theorem fill_none_spec (s : Decoder) (n : Int) (s2 : Decoder)
    (h : s.fill n = (s2, none)) :
    s2.start = s.start ∧ s2.pos = s.pos ∧ s2.msg = s.msg ∧ s2.err = s.err ∧
    s2.MaxSize = s.MaxSize ∧ 0 ≤ s.pos + n ∧
    (s.pos + n).toNat ≤ s2.br.buf.length ∧ (s.pos + n).toNat ≤ s2.br.bufSize ∧
    s2.br.stream = s.br.stream ∧ s2.br.bufSize = s.br.bufSize ∧
    s2.br.srcErr = s.br.srcErr ∧ s.br.buf.length ≤ s2.br.buf.length ∧
    s2.br.buf = s.br.stream.take s2.br.buf.length := by
  unfold Decoder.fill at h
  split at h
  · simp at h
  · rcases hp : s.br.peek (s.pos + n) with ⟨br2, out, e⟩
    rw [hp] at h
    rw [Prod.mk.injEq] at h
    obtain ⟨hs2, he⟩ := h
    subst he
    subst hs2
    obtain ⟨hk, hb2, hlen, hcap, -⟩ := peek_none_spec _ _ _ _ hp
    obtain ⟨f1, f2, f3, f4, f5⟩ := fillTo_spec s.br (s.pos + n).toNat
    subst hb2
    exact ⟨rfl, rfl, rfl, rfl, rfl, hk, hlen, hcap, f3, f1, f2, f4, f5⟩

/-- C2: `fill n` detects 64-bit overflow of `pos + n` before any read —
when `pos + n` would exceed `maxInt` it returns `errFillOverflow` with
the decoder untouched (no `Peek` and no panic) — and when it returns no
error at least `n` bytes are buffered past the dot (`buflen ≥ n`); the
cursor is unchanged either way. -/
theorem C2_fill_overflow_guard (s : Decoder) (n : Int)
    (hlo : -(2 ^ 63) ≤ n) (hhi : n ≤ maxInt) :
    (maxInt < s.pos + n → s.fill n = (s, some Err.fillOverflow)) ∧
    (∀ s2, s.fill n = (s2, none) →
      n ≤ s2.buflen ∧ s2.start = s.start ∧ s2.pos = s.pos) := by
  constructor
  · intro hov
    have hguard : wrap64 (maxInt - n) < s.pos := by
      unfold wrap64 maxInt at *
      omega
    unfold Decoder.fill
    rw [if_pos hguard]
  · intro s2 hf
    obtain ⟨e1, e2, -, -, -, -, e7, -, -, -, -, -, -⟩ := fill_none_spec s n s2 hf
    refine ⟨?_, e1, e2⟩
    have h9 : s.pos + n ≤ (s2.br.buf.length : Int) := Int.toNat_le.mp e7
    unfold Decoder.buflen BufioReader.Buffered
    omega

/-- C2 witness: at `dC2w` (pos = 1), `fill maxInt` overflows and leaves
the decoder untouched, while `fill 3` succeeds with at least 3 bytes
buffered past the dot. -/
theorem C2_fill_overflow_guard_witness :
    dC2w.fill maxInt = (dC2w, some Err.fillOverflow) ∧
    (3 : Int) ≤ ((dC2w.fill 3).1).buflen := by
  constructor
  · exact (C2_fill_overflow_guard dC2w maxInt (by decide) le_rfl).1 (by decide)
  · exact ((C2_fill_overflow_guard dC2w 3 (by decide) (by decide)).2
      (dC2w.fill 3).1 (by decide)).1

/-- When the drain/drop/reset phase ends with the error set, `Next`
returns that state and false without consulting the fetch step. -/
theorem Next_err_case (f : Decoder → Decoder × Option Styxproto.Err) (s : Decoder)
    (h : (s.exhaustReaders.dropMessages.resetdot).err.isSome = true) :
    Decoder.Next f s = (s.exhaustReaders.dropMessages.resetdot, false) := by
  unfold Decoder.Next
  rw [if_pos h]

/-- C1 counterexample: on `dC1c` the exhaust step fails, yet the very
same `Next` call still discards the batch's bytes from the window (its
stream shrinks from `[1,2,3,4,5]` to `[4,5]`), so a failure in one step
does not short-circuit the remaining drain/discard/reset steps — only
the fetch step is skipped. -/
theorem C1_counterexample :
    dC1c.err = none ∧
    dC1c.exhaustReaders.err = some (Err.ioError "boom") ∧
    dC1c.br.stream = [1, 2, 3, 4, 5] ∧
    (Decoder.Next fetchId dC1c).1.br.stream = [4, 5] ∧
    (Decoder.Next fetchId dC1c).2 = false :=
  ⟨rfl, rfl, rfl, rfl, rfl⟩

/-- C1 (amended): `Next` runs exhaust, drop and cursor reset
unconditionally in that order; a failure recorded by the exhaust step
short-circuits only the fetch step (never consulted, so the result does
not depend on it), `Next` returns false, and when the drops themselves
succeed the exhaust error is the one surfaced via the sticky error
field while the batch's bytes are nevertheless discarded from the
window. -/
theorem C1_next_shortcircuits_only_fetch (s : Decoder) (e : Err)
    (f g : Decoder → Decoder × Option Styxproto.Err)
    (he : exhaustLoop s.msg = some e)
    (hL : (s.msg.map Msg.nbytes).sum ≤ s.br.stream.length) :
    (Decoder.Next f s).2 = false ∧
    (Decoder.Next f s).1.err = some e ∧
    (Decoder.Next f s).1.br.stream = s.br.stream.drop ((s.msg.map Msg.nbytes).sum) ∧
    (Decoder.Next f s).1.msg = [] ∧
    Decoder.Next f s = Decoder.Next g s := by
  have h1 : s.exhaustReaders = { s with err := some e } := by
    unfold Decoder.exhaustReaders
    rw [he]
  obtain ⟨d1, d2, d3, d4⟩ := dropLoop_success s.msg s.br hL
  rcases hdl : dropLoop s.br s.msg with ⟨b2, e2⟩
  rw [hdl] at d1 d2 d3 d4
  dsimp only at d1 d2 d3 d4
  subst d1
  have h2 : s.exhaustReaders.dropMessages = { s with br := b2, err := some e, msg := [] } := by
    rw [h1]
    unfold Decoder.dropMessages
    dsimp only
    rw [hdl]
  have h3 : s.exhaustReaders.dropMessages.resetdot
      = { s with br := b2, err := some e, msg := [], start := 0, pos := 0 } := by
    rw [h2]
    rfl
  have hcf := Next_err_case f s (by rw [h3]; rfl)
  have hcg := Next_err_case g s (by rw [h3]; rfl)
  rw [hcf, hcg, h3]
  exact ⟨rfl, rfl, d2, rfl, rfl⟩

/-- C1 witness: the amended theorem applied to `dC1c` with two distinct
fetch steps. -/
theorem C1_next_shortcircuits_only_fetch_witness :
    (Decoder.Next fetchId dC1c).2 = false ∧
    (Decoder.Next fetchId dC1c).1.err = some (Err.ioError "boom") ∧
    (Decoder.Next fetchId dC1c).1.br.stream
      = dC1c.br.stream.drop ((dC1c.msg.map Msg.nbytes).sum) ∧
    (Decoder.Next fetchId dC1c).1.msg = [] ∧
    Decoder.Next fetchId dC1c = Decoder.Next fetchStop dC1c :=
  C1_next_shortcircuits_only_fetch dC1c (Err.ioError "boom") fetchId fetchStop rfl (by decide)

/-- C3 counterexample: on `dC3c` the exhaust step records the I/O error
"boom" in the sticky field, but the drop step of the same `Next` call
fails with end-of-stream and replaces it — so an error set by one step
can be overwritten by a later step of the same cycle. -/
theorem C3_counterexample :
    dC3c.exhaustReaders.err = some (Err.ioError "boom") ∧
    (Decoder.Next fetchId dC3c).1.err = some Err.eof ∧
    (Decoder.Next fetchId dC3c).2 = false :=
  ⟨rfl, rfl, rfl⟩

/-- C3 (amended): the error field holds the error recorded by the most
recent failing step — within one `Next` call a `dropMessages` failure
replaces an `exhaustReaders` failure — but once a call has completed
the batch is empty, so on every subsequent call to `Next` the stored
error is never modified: it persists, and `Next` keeps returning false,
until `Reset`. -/
theorem C3_error_persists_across_calls (s : Decoder) (e : Err)
    (f : Decoder → Decoder × Option Styxproto.Err)
    (h1 : s.err = some e) (h2 : s.msg = []) :
    (Decoder.Next f s).2 = false ∧
    (Decoder.Next f s).1.err = some e ∧
    (Decoder.Next f s).1.msg = [] := by
  have he : s.exhaustReaders = s := by
    unfold Decoder.exhaustReaders
    rw [h2]
    rfl
  have hd : s.dropMessages = { s with msg := [] } := by
    unfold Decoder.dropMessages
    rw [h2]
    rfl
  have h3 : s.exhaustReaders.dropMessages.resetdot
      = { s with msg := [], start := 0, pos := 0 } := by
    rw [he, hd]
    rfl
  have hcf := Next_err_case f s (by rw [h3]; dsimp only; rw [h1]; rfl)
  rw [hcf, h3]
  exact ⟨rfl, h1, rfl⟩

/-- C3 witness: the amended theorem applied to `dC3w`, whose sticky
error survives a further `Next` call with an erroring fetch step. -/
theorem C3_error_persists_across_calls_witness :
    (Decoder.Next fetchStop dC3w).2 = false ∧
    (Decoder.Next fetchStop dC3w).1.err = some (Err.ioError "boom") ∧
    (Decoder.Next fetchStop dC3w).1.msg = [] :=
  C3_error_persists_across_calls dC3w (Err.ioError "boom") fetchStop rfl rfl

/-- C4: `Err` normalizes a stored `io.EOF` to no error and returns any
other stored error (such as `io.ErrUnexpectedEOF`) unchanged, so a
clean end between frames is distinguishable from a truncated frame. -/
theorem C4_Err_eof_normalized (s : Decoder) :
    (s.err = some Err.eof → s.Err = none) ∧
    (s.err ≠ some Err.eof → s.Err = s.err) := by
  constructor
  · intro h
    unfold Decoder.Err
    rw [if_pos h]
  · intro h
    unfold Decoder.Err
    rw [if_neg h]

/-- C4 witness: a stored clean EOF reads back as no error; a stored
unexpected EOF is returned as-is. -/
theorem C4_Err_eof_normalized_witness :
    dC4a.Err = none ∧ dC4b.Err = some Err.unexpectedEof := by
  refine ⟨(C4_Err_eof_normalized dC4a).1 rfl, ?_⟩
  exact ((C4_Err_eof_normalized dC4b).2 (by decide)).trans rfl

/-- C8: requests below `MinBufSize` are clamped up to exactly
`MinBufSize`, requests at or above it are used as given, and both
constructors produce `MaxSize = -1` (unlimited) by default. -/
theorem C8_construct_clamp (src : List Nat) (e : Err) (bufsize : Int) :
    (bufsize < (MinBufSize : Int) → (NewDecoderSize src e bufsize).br.bufSize = MinBufSize) ∧
    ((MinBufSize : Int) ≤ bufsize → (NewDecoderSize src e bufsize).br.bufSize = bufsize.toNat) ∧
    (NewDecoderSize src e bufsize).MaxSize = -1 ∧
    (NewDecoder src e).MaxSize = -1 := by
  refine ⟨?_, ?_, rfl, rfl⟩
  · intro h
    unfold NewDecoderSize
    dsimp only
    rw [if_pos h]
    exact Int.toNat_natCast _
  · intro h
    unfold NewDecoderSize
    dsimp only
    rw [if_neg (not_lt.2 h)]

/-- C8 witness: a request of 5 is clamped to the floor, a request of
100 is used as given. -/
theorem C8_construct_clamp_witness :
    (NewDecoderSize [] Err.eof 5).br.bufSize = MinBufSize ∧
    (NewDecoderSize [] Err.eof 100).br.bufSize = (100 : Int).toNat :=
  ⟨(C8_construct_clamp [] Err.eof 5).1 (by decide),
   (C8_construct_clamp [] Err.eof 100).2.1 (by decide)⟩

/-- `peek` never shrinks the buffer. -/
theorem peek_grow (b : BufioReader) (k : Int) : b.buf.length ≤ (b.peek k).1.buf.length := by
  rw [peek_fst]
  split
  · exact le_refl _
  · exact (fillTo_spec b k.toNat).2.2.2.1

/-- Whatever `fill` returns, the cursor, batch, error and `MaxSize` are
unchanged and the buffer does not shrink. -/
theorem fill_fst_spec (s : Decoder) (n : Int) :
    (s.fill n).1.start = s.start ∧ (s.fill n).1.pos = s.pos ∧
    (s.fill n).1.msg = s.msg ∧ (s.fill n).1.err = s.err ∧
    s.br.buf.length ≤ (s.fill n).1.br.buf.length := by
  unfold Decoder.fill
  split
  · exact ⟨rfl, rfl, rfl, rfl, le_refl _⟩
  · have hg := peek_grow s.br (s.pos + n)
    rcases hp : s.br.peek (s.pos + n) with ⟨br2, out, e⟩
    rw [hp] at hg
    dsimp only at hg
    exact ⟨rfl, rfl, rfl, rfl, hg⟩

/-- A `growdot` that returns `Except.error` returns the state `fill`
produced. -/
theorem growdot_error_state (s : Decoder) (n : Int) (s2 : Decoder) (e : Err)
    (h : s.growdot n = some (s2, Except.error e)) :
    s2 = (s.fill (n - s.dotlen)).1 := by
  unfold Decoder.growdot at h
  rcases hf : s.fill (n - s.dotlen) with ⟨sf, ef⟩
  rw [hf] at h
  cases ef with
  | some e2 =>
    dsimp only at h
    rw [Option.some.injEq, Prod.mk.injEq] at h
    exact h.1.symm
  | none =>
    dsimp only at h
    rcases ha : sf.advance (n - sf.dotlen) with _ | s3
    · rw [ha] at h
      simp at h
    · rw [ha] at h
      dsimp only at h
      rcases hd : s3.dot with _ | ⟨s4, bs⟩
      · rw [hd] at h
        simp at h
      · rw [hd] at h
        simp at h

/-- A `growdot n` that returns bytes without panicking establishes the
full cursor and buffer geometry: the dot spans `[start, start + n)` and
lies within the (grown) buffer, the stream, batch and error are
unchanged, the bytes are exactly the dot's slice of the buffer, and
`dot` on the resulting state returns the same bytes. -/
theorem growdot_ok_spec (s : Decoder) (n : Int) (s2 : Decoder) (bytes : List Nat)
    (h : s.growdot n = some (s2, Except.ok bytes)) :
    s2.start = s.start ∧ s2.pos = s.start + n ∧
    0 ≤ s2.start ∧ s2.start ≤ s2.pos ∧ s2.pos ≤ (s2.br.Buffered : Int) ∧
    s2.br.stream = s.br.stream ∧
    s2.pos.toNat ≤ s2.br.buf.length ∧ s2.pos.toNat ≤ s2.br.bufSize ∧
    s2.br.buf = s.br.stream.take s2.br.buf.length ∧
    s2.msg = s.msg ∧ s2.err = s.err ∧
    bytes = (s2.br.buf.take s2.pos.toNat).drop s2.start.toNat ∧
    s2.dot = some (s2, bytes) := by
  unfold Decoder.growdot at h
  rcases hf : s.fill (n - s.dotlen) with ⟨sf, ef⟩
  rw [hf] at h
  cases ef with
  | some e => simp at h
  | none =>
    dsimp only at h
    obtain ⟨f1, f2, f3, f4, f5, f6, f7, f8, f9, f10, f11, f12, f13⟩ :=
      fill_none_spec s (n - s.dotlen) sf hf
    have hdl : sf.dotlen = s.dotlen := by
      unfold Decoder.dotlen
      rw [f1, f2]
    have hp3 : sf.pos + (n - sf.dotlen) = s.pos + (n - s.dotlen) := by
      rw [f2, hdl]
    have h0pos : 0 ≤ sf.pos + (n - sf.dotlen) := by
      rw [hp3]
      exact f6
    have hlen3 : (sf.pos + (n - sf.dotlen)).toNat ≤ sf.br.buf.length := by
      rw [hp3]
      exact f7
    have hcap3 : (sf.pos + (n - sf.dotlen)).toNat ≤ sf.br.bufSize := by
      rw [hp3]
      exact f8
    rcases ha : sf.advance (n - sf.dotlen) with _ | s3
    · rw [ha] at h
      simp at h
    · rw [ha] at h
      dsimp only at h
      unfold Decoder.advance at ha
      split at ha
      · simp at ha
      · rw [Option.some.injEq] at ha
        subst ha
        rcases hd : ({ sf with pos := sf.pos + (n - sf.dotlen) } : Decoder).dot
          with _ | ⟨s4, bs⟩
        · rw [hd] at h
          simp at h
        · have hdOrig := hd
          rw [hd] at h
          rw [Option.some.injEq, Prod.mk.injEq, Except.ok.injEq] at h
          obtain ⟨h4, hbs⟩ := h
          subst h4
          subst hbs
          unfold Decoder.dot at hd
          dsimp only at hd
          rw [if_neg (not_lt.2 (by
                unfold BufioReader.Buffered
                have h9 := Int.toNat_le.mp hlen3
                omega)),
            peek_noop sf.br (sf.pos + (n - sf.dotlen)) h0pos hlen3 hcap3] at hd
          dsimp only at hd
          split at hd
          · next hc =>
            rw [Option.some.injEq, Prod.mk.injEq] at hd
            obtain ⟨hds, hdb⟩ := hd
            have hminEq : min (sf.pos + (n - sf.dotlen)).toNat sf.br.buf.length
                = (sf.pos + (n - sf.dotlen)).toNat := Nat.min_eq_left hlen3
            have hc2 := hc.2
            rw [List.length_take, hminEq] at hc2
            have hcast : (((sf.pos + (n - sf.dotlen)).toNat : Nat) : Int)
                = sf.pos + (n - sf.dotlen) := Int.toNat_of_nonneg h0pos
            have h9 := Int.toNat_le.mp hlen3
            refine ⟨?_, ?_, ?_, ?_, ?_, ?_, ?_, ?_, ?_, ?_, ?_, ?_, ?_⟩
            · rw [← hds]
              exact f1
            · rw [← hds]
              show sf.pos + (n - sf.dotlen) = s.start + n
              rw [f2, hdl]
              unfold Decoder.dotlen
              omega
            · rw [← hds]
              exact hc.1
            · rw [← hds]
              show sf.start ≤ sf.pos + (n - sf.dotlen)
              omega
            · rw [← hds]
              show sf.pos + (n - sf.dotlen) ≤ (sf.br.Buffered : Int)
              unfold BufioReader.Buffered
              omega
            · rw [← hds]
              exact f9
            · rw [← hds]
              exact hlen3
            · rw [← hds]
              exact hcap3
            · rw [← hds]
              exact f13
            · rw [← hds]
              exact f3
            · rw [← hds]
              exact f4
            · rw [← hds]
              exact hdb.symm
            · exact hds ▸ hdOrig
          · simp at hd

/-- Any state `growdot` returns without panicking still satisfies the
cursor invariant. -/
theorem growdot_some_invariant (s : Decoder) (n : Int) (s2 : Decoder)
    (r : Except Styxproto.Err (List Nat)) (hs : Invariant s)
    (h : s.growdot n = some (s2, r)) : Invariant s2 := by
  cases r with
  | error e =>
    have h2 := growdot_error_state s n s2 e h
    obtain ⟨g1, g2, -, -, g5⟩ := fill_fst_spec s (n - s.dotlen)
    rw [← h2] at g1 g2 g5
    obtain ⟨i1, i2, i3⟩ := hs
    unfold BufioReader.Buffered at i3
    exact ⟨by omega, by omega, by
      show s2.pos ≤ ((s2.br.buf.length : Nat) : Int)
      omega⟩
  | ok bytes =>
    obtain ⟨-, -, g3, g4, g5, -⟩ := growdot_ok_spec s n s2 bytes h
    exact ⟨g3, g4, g5⟩

/-- From a state satisfying the cursor invariant, `growdot` with a
nonnegative request never panics: every violating call to its internal
`advance` and `dot` is prevented by the preceding `fill`. -/
theorem growdot_total (s : Decoder) (n : Int) (hs : Invariant s) (hn : 0 ≤ n) :
    s.growdot n ≠ none := by
  unfold Decoder.growdot
  rcases hf : s.fill (n - s.dotlen) with ⟨sf, ef⟩
  cases ef with
  | some e => simp
  | none =>
    obtain ⟨f1, f2, f3, f4, f5, f6, f7, f8, f9, f10, f11, f12, f13⟩ :=
      fill_none_spec s (n - s.dotlen) sf hf
    have hdl : sf.dotlen = s.dotlen := by
      unfold Decoder.dotlen
      rw [f1, f2]
    have hp3 : sf.pos + (n - sf.dotlen) = s.pos + (n - s.dotlen) := by
      rw [f2, hdl]
    have h0pos : 0 ≤ sf.pos + (n - sf.dotlen) := by
      rw [hp3]
      exact f6
    have hlen3 : (sf.pos + (n - sf.dotlen)).toNat ≤ sf.br.buf.length := by
      rw [hp3]
      exact f7
    have hcap3 : (sf.pos + (n - sf.dotlen)).toNat ≤ sf.br.bufSize := by
      rw [hp3]
      exact f8
    have hadv : sf.advance (n - sf.dotlen)
        = some { sf with pos := sf.pos + (n - sf.dotlen) } := by
      unfold Decoder.advance
      rw [if_neg (by
        unfold Decoder.buflen BufioReader.Buffered
        have h9 := Int.toNat_le.mp hlen3
        omega)]
    dsimp only
    rw [hadv]
    dsimp only
    have hcast : (((sf.pos + (n - sf.dotlen)).toNat : Nat) : Int)
        = sf.pos + (n - sf.dotlen) := Int.toNat_of_nonneg h0pos
    have hstart0 : 0 ≤ sf.start := by
      rw [f1]
      exact hs.1
    have hstartle : sf.start ≤ sf.pos + (n - sf.dotlen) := by
      rw [f1, hp3]
      unfold Decoder.dotlen
      have i2 := hs.2.1
      omega
    have hdot : ({ sf with pos := sf.pos + (n - sf.dotlen) } : Decoder).dot
        = some ({ sf with pos := sf.pos + (n - sf.dotlen) },
            (sf.br.buf.take (sf.pos + (n - sf.dotlen)).toNat).drop sf.start.toNat) := by
      unfold Decoder.dot
      dsimp only
      rw [if_neg (not_lt.2 (by
            unfold BufioReader.Buffered
            have h9 := Int.toNat_le.mp hlen3
            omega)),
        peek_noop sf.br (sf.pos + (n - sf.dotlen)) h0pos hlen3 hcap3]
      dsimp only
      rw [if_pos ⟨hstart0, by
        rw [List.length_take, Nat.min_eq_left hlen3]
        omega⟩]
    rw [hdot]
    simp

/-- C6 counterexample: from `d6c`, which satisfies the invariant,
`advance (-1)` does not panic and yields a state violating
`0 ≤ start ≤ pos ≤ buffered`: the cursor operations accept negative
arguments without failing loudly, so not every invariant-violating call
panics and not every call preserves the invariant. -/
theorem C6_counterexample :
    Invariant d6c ∧
    d6c.advance (-1) = some { d6c with pos := -1 } ∧
    ¬ Invariant { d6c with pos := -1 } := by
  refine ⟨by decide, by decide, by decide⟩

/-- C6 (amended): for nonnegative arguments the cursor operations
preserve the invariant `0 ≤ start ≤ pos ≤ buffered length`, and the
violating calls the spec lists panic rather than return an error:
`advance` beyond the buffered bytes, `shrinkdot` beyond the dot, `dot`
with `pos` past the buffered bytes; moreover `growdot` never panics
from an invariant-satisfying state with a nonnegative request (stream
input alone reaches its error returns, not the panics). However,
`advance` and `shrinkdot` accept negative arguments without panicking
and can then break the invariant (see the counterexample). -/
theorem C6_cursor_invariant (s : Decoder) (n : Int) (hn : 0 ≤ n) (hs : Invariant s) :
    Invariant s.resetdot ∧
    Invariant s.mark ∧
    (∀ s2, s.advance n = some s2 → Invariant s2) ∧
    (s.buflen < n → s.advance n = none) ∧
    (∀ s2, s.shrinkdot n = some s2 → Invariant s2) ∧
    (s.dotlen < n → s.shrinkdot n = none) ∧
    ((s.br.Buffered : Int) < s.pos → s.dot = none) ∧
    (∀ s2 bytes, s.dot = some (s2, bytes) → Invariant s2) ∧
    (∀ s2 r, s.growdot n = some (s2, r) → Invariant s2) ∧
    s.growdot n ≠ none := by
  obtain ⟨i1, i2, i3⟩ := hs
  have i3b : s.pos ≤ (s.br.buf.length : Int) := i3
  refine ⟨?_, ?_, ?_, ?_, ?_, ?_, ?_, ?_, ?_, ?_⟩
  · exact ⟨le_refl 0, le_refl 0, Int.natCast_nonneg _⟩
  · exact ⟨i1.trans i2, le_refl _, i3⟩
  · intro s2 h
    unfold Decoder.advance at h
    split at h
    · simp at h
    · next hc =>
      rw [Option.some.injEq] at h
      subst h
      unfold Decoder.buflen BufioReader.Buffered at hc
      refine ⟨i1, ?_, ?_⟩
      · show s.start ≤ s.pos + n
        omega
      · show s.pos + n ≤ (s.br.buf.length : Int)
        omega
  · intro hlt
    unfold Decoder.advance
    rw [if_pos hlt]
  · intro s2 h
    unfold Decoder.shrinkdot at h
    split at h
    · simp at h
    · next hc =>
      rw [Option.some.injEq] at h
      subst h
      unfold Decoder.dotlen at hc
      refine ⟨i1, ?_, ?_⟩
      · show s.start ≤ s.pos - n
        omega
      · show s.pos - n ≤ (s.br.buf.length : Int)
        omega
  · intro hlt
    unfold Decoder.shrinkdot
    rw [if_pos hlt]
  · intro hlt
    unfold Decoder.dot
    rw [if_pos hlt]
  · intro s2 bytes h
    unfold Decoder.dot at h
    split at h
    · simp at h
    · have hg := peek_grow s.br s.pos
      rcases hp : s.br.peek s.pos with ⟨br2, out, e⟩
      rw [hp] at h hg
      dsimp only at hg
      cases e with
      | some e2 => simp at h
      | none =>
        dsimp only at h
        split at h
        · rw [Option.some.injEq, Prod.mk.injEq] at h
          obtain ⟨hds, -⟩ := h
          subst hds
          refine ⟨i1, i2, ?_⟩
          show s.pos ≤ (br2.buf.length : Int)
          omega
        · simp at h
  · intro s2 r h
    exact growdot_some_invariant s n s2 r ⟨i1, i2, i3⟩ h
  · exact growdot_total s n ⟨i1, i2, i3⟩ hn

/-- C6 witness: the amended theorem applied at `d6w` with request 1. -/
theorem C6_cursor_invariant_witness :
    Invariant d6w.mark ∧ d6w.growdot 1 ≠ none := by
  obtain ⟨-, c2, -, -, -, -, -, -, -, c10⟩ :=
    C6_cursor_invariant d6w 1 (by decide) (by decide)
  exact ⟨c2, c10⟩

/-- C7: `mark` followed by `dot` returns the empty span, and whenever
`growdot n` succeeds with bytes the returned span is exactly the dot —
`dot` on the resulting state returns the same bytes — its length is
exactly `n` (`dotlen = n`), and its content is the next `n` bytes of
the source stream starting at the dot's start offset. -/
theorem C7_mark_growdot_roundtrip (s : Decoder) (n : Int)
    (hs : Invariant s) (hb : s.br.buf.length ≤ s.br.bufSize) :
    s.mark.dot = some (s.mark, []) ∧
    (∀ s2 bytes, s.growdot n = some (s2, Except.ok bytes) →
      (bytes.length : Int) = n ∧ s2.dotlen = n ∧ s2.dot = some (s2, bytes) ∧
      bytes = (s.br.stream.drop s.start.toNat).take n.toNat) := by
  obtain ⟨i1, i2, i3⟩ := hs
  have i3b : s.pos ≤ (s.br.buf.length : Int) := i3
  constructor
  · have h0 : 0 ≤ s.pos := i1.trans i2
    have hlen : s.pos.toNat ≤ s.br.buf.length := Int.toNat_le.mpr i3b
    unfold Decoder.mark Decoder.dot
    dsimp only
    rw [if_neg (not_lt.2 i3), peek_noop s.br s.pos h0 hlen (hlen.trans hb)]
    dsimp only
    rw [if_pos ⟨h0, by
      rw [List.length_take, Nat.min_eq_left hlen]
      omega⟩]
    rw [show (s.br.buf.take s.pos.toNat).drop s.pos.toNat = ([] : List Nat) from
      List.drop_eq_nil_of_le (by rw [List.length_take]; omega)]
  · intro s2 bytes h
    obtain ⟨g1, g2, g3, g4, g5, g6, g7, g8, g9, g10, g11, g12, g13⟩ :=
      growdot_ok_spec s n s2 bytes h
    have hlenb : bytes.length = s2.pos.toNat - s2.start.toNat := by
      rw [g12, List.length_drop, List.length_take, Nat.min_eq_left g7]
    have hbl : (bytes.length : Int) = n := by omega
    refine ⟨hbl, ?_, g13, ?_⟩
    · unfold Decoder.dotlen
      omega
    · have hJ : s2.br.buf.take s2.pos.toNat = s.br.stream.take s2.pos.toNat := by
        rw [g9, List.take_take, Nat.min_eq_left g7]
      have hS : s2.start.toNat = s.start.toNat := by
        rw [g1]
      have hPS : s2.pos.toNat - s2.start.toNat = n.toNat := by omega
      rw [g12, hJ, List.drop_take, hPS, hS]

/-- C7 witness: on `d7w`, `mark` then `dot` yields the empty span, and
`growdot 2` returns `[10, 20]`, which is exactly `dot` on the resulting
state, has length 2, and equals the first two source-stream bytes. -/
theorem C7_mark_growdot_roundtrip_witness :
    d7w.mark.dot = some (d7w.mark, []) ∧
    ((([10, 20] : List Nat).length : Int) = 2 ∧ d7post.dotlen = 2 ∧
      d7post.dot = some (d7post, [10, 20]) ∧
      ([10, 20] : List Nat) = (d7w.br.stream.drop d7w.start.toNat).take (2 : Int).toNat) := by
  have h := C7_mark_growdot_roundtrip d7w 2 (by decide) (by decide)
  exact ⟨h.1, h.2 d7post [10, 20] (by rfl)⟩

/-- C10: `Reset` rebinds the source, clears the cursor offsets, the
batch and the sticky error, keeps the existing buffer allocation, and
resets `MaxSize` to -1, silently discarding any configured limit. -/
theorem C10_reset_clears (s : Decoder) (src : List Nat) (e : Err) :
    (s.Reset src e).MaxSize = -1 ∧ (s.Reset src e).start = 0 ∧
    (s.Reset src e).pos = 0 ∧ (s.Reset src e).msg = [] ∧
    (s.Reset src e).err = none ∧ (s.Reset src e).br.bufSize = s.br.bufSize ∧
    (s.Reset src e).br.buf = [] ∧ (s.Reset src e).br.src = src ∧
    (s.Reset src e).br.srcErr = e :=
  ⟨rfl, rfl, rfl, rfl, rfl, rfl, rfl, rfl, rfl⟩

end Styxproto
